import Mathlib

/-!
# ssl-proxy (dual-domain): host-based dispatch and certificate provisioning

A shallow embedding of `main.go`.  Go strings are modelled by `String`; the
only separators the program splits on are the one-byte characters `,` and
`=`, so splitting on characters agrees with Go's byte-wise split.  The Go
`map[string]string` is modelled by an association list with unique keys.
Calls into libraries that are not part of the program (`net/http`,
`net/url`, `reverseproxy`, `gen`, `os`) are modelled by the observable
outcome of the call or taken from an environment record.  The two request
handlers are the function literals of `main`; what `http.ServeMux` and
`http.Server` do with a request before they call a handler belongs to
`net/http` and is not part of the model.  Of what `http.Error` and
`http.Redirect` write, the status code and the `Location` header are
modelled (`Outcome.status`, `Outcome.location`); Lean strings are valid
Unicode, so the bytes of a string are the UTF-8 bytes of its characters.
Log lines other than the fatal ones are left out.
-/

namespace SslProxy

deriving instance DecidableEq for Except

/-! ## String primitives used by the program -/

/-- Character-level worker for `strings.Split(s, sep)` with a one-character
separator: the pieces between consecutive occurrences of `sep`. -/
def splitChars (sep : Char) : List Char → List (List Char)
  | [] => [[]]
  | c :: cs =>
    if c = sep then [] :: splitChars sep cs
    else
      match splitChars sep cs with
      | [] => [[c]]
      | piece :: more => (c :: piece) :: more

/-- Go `strings.Split(s, sep)` for a one-character separator. -/
def Split (s : String) (sep : Char) : List String :=
  (splitChars sep s.data).map String.mk

/-- Go `strings.HasPrefix(s, p)`. -/
def HasPrefix (s p : String) : Bool :=
  p.data.isPrefixOf s.data

/-! ## Constants -/

def DefaultCertFile : String := "cert.pem"
def DefaultKeyFile : String := "key.pem"
def HTTPSPrefix : String := "https://"
def HTTPPrefix : String := "http://"

/-! ## The domain map -/

/-- A Go `map[string]string`: an association list in which a key occurs at
most once (maintained by `GoMap.set`). -/
abbrev GoMap := List (String × String)

/-- Go `v, ok := m[k]`. -/
def GoMap.get : GoMap → String → Option String
  | [], _ => none
  | (k', v) :: rest, k => if k' = k then some v else GoMap.get rest k

/-- Go `m[k] = v`. -/
def GoMap.set : GoMap → String → String → GoMap
  | [], k, v => [(k, v)]
  | (k', v') :: rest, k, v =>
    if k' = k then (k', v) :: rest else (k', v') :: GoMap.set rest k v

/-- The keys of a map. -/
def GoMap.keys (m : GoMap) : List String := m.map Prod.fst

/-- The package-level initial value of `domainToProxyMap`. -/
def domainToProxyMap : GoMap :=
  [("example1.com", "http://127.0.0.1:8081"),
   ("example2.com", "http://127.0.0.1:8082")]

/-- The body of the `for _, mapping := range mappings` loop of `main`, run
over the remaining entries: an entry that splits at `=` into exactly two
parts is stored, anything else is fatal (`log.Fatalf`). -/
def parseMappings : List String → GoMap → Except String GoMap
  | [], m => .ok m
  | mapping :: rest, m =>
    match Split mapping '=' with
    | [d, u] => parseMappings rest (m.set d u)
    | _ => .error ("Invalid domain mapping: " ++ mapping)

/-- The domain-map parsing block of `main`: skipped for the empty flag value,
otherwise every comma-separated entry is processed in order. -/
def parseDomainMap (domainMap : String) (m : GoMap) : Except String GoMap :=
  if domainMap ≠ "" then parseMappings (Split domainMap ',') m else .ok m

/-! ## Request handlers -/

/-- The two fields of `http.Request` the handlers read. -/
structure Request where
  Host : String
  RequestURI : String
  deriving DecidableEq, Repr

def StatusMovedPermanently : Nat := 301
def StatusForbidden : Nat := 403
def StatusInternalServerError : Nat := 500

/-- What a handler does with a request, as the library call it ends in.
`U` is the type of parsed URLs (`*url.URL`). -/
inductive Outcome (U : Type) where
  /-- the call `http.Error(w, msg, code)` -/
  | httpError (msg : String) (code : Nat)
  /-- the calls `reverseproxy.Build(targetURL).ServeHTTP(w, r)` -/
  | proxied (targetURL : U)
  /-- the call `http.Redirect(w, r, url, code)` -/
  | redirected (url : String) (code : Nat)
  deriving DecidableEq, Repr

/-- The function registered on the mux for `/`.  `parse` is `url.Parse`
(`none` for a non-nil error). -/
def muxHandler {U : Type} (parse : String → Option U) (m : GoMap) (r : Request) :
    Outcome U :=
  let host := r.Host
  match m.get host with
  | none => .httpError "Forbidden" StatusForbidden
  | some target =>
    match parse target with
    | none => .httpError "Internal Server Error" StatusInternalServerError
    | some targetURL => .proxied targetURL

/-- The handler `redirectTLS` of the plaintext listener. -/
def redirectTLS {U : Type} (m : GoMap) (r : Request) : Outcome U :=
  let host := r.Host
  match m.get host with
  | none => .httpError "Forbidden" StatusForbidden
  | some _ => .redirected ("https://" ++ host ++ r.RequestURI) StatusMovedPermanently

/-! ## A model of the front of `url.Parse`

`net/url` belongs to the Go standard library.  The handlers above take the
parser as a parameter; the definitions below reproduce the first two checks
of `url.Parse` (control bytes, scheme scan) so that the handlers can be run
on concrete backends.  A string rejected here is rejected by the library. -/

/-- The `getScheme` scan of `net/url`, from position `i` with the characters
before `i` (all letters, digits, `+`, `-` or `.`) in `seen`: `none` is the
error "missing protocol scheme", otherwise the scheme and the rest. -/
def getSchemeFrom (raw : List Char) : List Char → List Char → Option (List Char × List Char)
  | _, [] => some ([], raw)
  | seen, c :: cs =>
    if ('a' ≤ c ∧ c ≤ 'z') ∨ ('A' ≤ c ∧ c ≤ 'Z') then getSchemeFrom raw (seen ++ [c]) cs
    else if ('0' ≤ c ∧ c ≤ '9') ∨ c = '+' ∨ c = '-' ∨ c = '.' then
      if seen = [] then some ([], raw) else getSchemeFrom raw (seen ++ [c]) cs
    else if c = ':' then
      if seen = [] then none else some (seen, cs)
    else some ([], raw)

/-- The `getScheme` function of `net/url`. -/
def getScheme (rawURL : String) : Option (String × String) :=
  (getSchemeFrom rawURL.data [] rawURL.data).map fun p => (String.mk p.1, String.mk p.2)

/-- The `stringContainsCTLByte` function of `net/url`. -/
def stringContainsCTLByte (s : String) : Bool :=
  s.data.any fun c => c.toNat < 32 ∨ c.toNat = 127

/-- The front of `url.Parse`: the fragment is cut off at the first `#`, a
control byte or a missing scheme is an error, and the URL is returned as
its scheme and the part after it (the library goes on to split that part
into authority, path and query, which is not modelled). -/
def urlParseFront (rawURL : String) : Option (String × String) :=
  let u := (Split rawURL '#').headD ""
  if stringContainsCTLByte u then none
  else if u = "*" then some ("", "*")
  else getScheme u

/-! ## What `http.Redirect` and `http.Error` put on the wire

`http.Redirect(w, r, url, code)` rewrites `url` against the request path
only when `url.Parse(url)` succeeds with an empty scheme and an empty host;
it then sets `Location` to `hexEscapeNonASCII(url)` and writes the status
`code`. -/

/-- The UTF-8 bytes of a character. -/
def utf8Bytes (c : Char) : List Nat :=
  let v := c.toNat
  if v < 0x80 then [v]
  else if v < 0x800 then [0xC0 + v / 64, 0x80 + v % 64]
  else if v < 0x10000 then [0xE0 + v / 4096, 0x80 + v / 64 % 64, 0x80 + v % 64]
  else [0xF0 + v / 262144, 0x80 + v / 4096 % 64, 0x80 + v / 64 % 64, 0x80 + v % 64]

/-- The escapes of a run of bytes that are all `utf8.RuneSelf` or above:
each is written as `%` followed by `strconv.AppendInt(b, 16)`. -/
def escapeBytes : List Nat → List Char
  | [] => []
  | b :: bs => '%' :: (Nat.toDigits 16 b ++ escapeBytes bs)

/-- What `hexEscapeNonASCII` of `net/http` writes for the bytes of one
character: a byte below `utf8.RuneSelf` (0x80) is kept, any other byte
becomes `%` followed by `strconv.AppendInt(b, 16)`. -/
def escapeChar (c : Char) : List Char :=
  if c.toNat < 0x80 then [c] else escapeBytes (utf8Bytes c)

/-- Character-level worker for `hexEscapeNonASCII`. -/
def hexEscapeChars : List Char → List Char
  | [] => []
  | c :: cs => escapeChar c ++ hexEscapeChars cs

/-- The `hexEscapeNonASCII` function of `net/http`. -/
def hexEscapeNonASCII (s : String) : String :=
  String.mk (hexEscapeChars s.data)

/-- The `Location` header `http.Redirect` sets for the target `url`.  A
target that the front of `url.Parse` accepts with an empty scheme may be a
relative one, which the library first rewrites against the request path;
that case is not modelled (`none`).  In every other case the library either
fails to parse the target or parses it with a non-empty scheme, leaves it
as it is, and the header is `hexEscapeNonASCII(url)`. -/
def redirectLocation (url : String) : Option String :=
  match urlParseFront url with
  | some ("", _) => none
  | _ => some (hexEscapeNonASCII url)

/-- The status code a handler's outcome writes itself, if it writes one. -/
def Outcome.status {U : Type} : Outcome U → Option Nat
  | .httpError _ code => some code
  | .proxied _ => none
  | .redirected _ code => some code

/-- The `Location` header a handler's outcome sets itself, if it sets one. -/
def Outcome.location {U : Type} : Outcome U → Option String
  | .httpError _ _ => none
  | .proxied _ => none
  | .redirected url _ => redirectLocation url

/-! ## Startup -/

/-- The command-line flags, after `flag.Parse()`. -/
structure Flags where
  /-- the flag `-to` (`to` is reserved in Lean) -/
  toURL : String
  fromURL : String
  certFile : String
  keyFile : String
  domains : String
  redirectHTTP : Bool
  cacheDir : String
  domainMap : String
  deriving DecidableEq, Repr

/-- The default flag values declared in the `var` block. -/
def defaultFlags : Flags :=
  { toURL := "http://127.0.0.1:80", fromURL := "127.0.0.1:443", certFile := "", keyFile := "",
    domains := "", redirectHTTP := false, cacheDir := "certs", domainMap := "" }

abbrev Bytes := List Nat

/-- The collaborators outside the program: `url.Parse`, `gen.Keys` (called
with a validity in nanoseconds; returns certificate, key and fingerprint or
an error) and whether `os.Create` / `os.OpenFile` succeeds on a path. -/
structure Env (U : Type) where
  urlParse : String → Option U
  genKeys : Nat → Except String (Bytes × Bytes × Bytes)
  createOk : String → Bool

/-- The part of the outside world startup acts on: file contents by path,
and the number of calls made to `gen.Keys`. -/
structure World where
  files : String → Option Bytes
  genCalls : Nat

/-- Successful `os.Create(path)` (or `OpenFile` with `O_TRUNC`) followed by
`Write(data)`: the file holds exactly `data`.  The program discards what
`Write` returns; the write is taken to be complete. -/
def World.writeFile (w : World) (path : String) (data : Bytes) : World :=
  { w with files := fun p => if p = path then some data else w.files p }

/-- The Go constant `time.Hour`, in nanoseconds. -/
def Hour : Nat := 3600 * 1000000000

/-- The certificate paths after the self-signed block, the world after it,
or the fatal message and the world at exit. -/
structure CertStep where
  world : World
  result : Except String (String × String)

/-- The self-signed generation block of `main`.  Each `log.Fatal` ends the
process with the world as it is at that point; the text of an `os` error is
left out of the fatal message. -/
def selfSigned {U : Type} (env : Env U) (certFile keyFile domains : String) (w : World) :
    CertStep :=
  let validCertFile := certFile ≠ ""
  let validKeyFile := keyFile ≠ ""
  let validDomains := domains ≠ ""
  if (¬ validCertFile ∨ ¬ validKeyFile) ∧ ¬ validDomains then
    let certFile := DefaultCertFile
    let keyFile := DefaultKeyFile
    let w1 : World := { w with genCalls := w.genCalls + 1 }
    match env.genKeys (365 * 24 * Hour) with
    | .error err => { world := w1, result := .error ("Error generating default keys" ++ err) }
    | .ok (certBuf, keyBuf, _) =>
      if env.createOk certFile then
        let w2 := w1.writeFile certFile certBuf
        if env.createOk keyFile then
          { world := w2.writeFile keyFile keyBuf, result := .ok (certFile, keyFile) }
        else { world := w2, result := .error "Unable to create the key file" }
      else { world := w1, result := .error "Unable to create cert file" }
  else { world := w, result := .ok (certFile, keyFile) }

/-- The `-to` block of `main`. -/
def normalizeTo (toURL : String) : String :=
  if ¬ HasPrefix toURL HTTPPrefix ∧ ¬ HasPrefix toURL HTTPSPrefix then HTTPPrefix ++ toURL
  else toURL

/-- How the TLS listener is started at the end of `main`. -/
inductive ServePlan where
  /-- an `autocert.Manager` with `DirCache(cacheDir)` and `HostWhitelist`, then
  `s.ListenAndServeTLS(certFile, keyFile)` on `addr` -/
  | managedACME (addr cacheDir : String) (whitelist : List String) (certFile keyFile : String)
  /-- the call `http.ListenAndServeTLS(addr, certFile, keyFile, mux)` -/
  | staticFiles (addr certFile keyFile : String)
  deriving DecidableEq, Repr

/-- The TLS mode selection at the end of `main`. -/
def servePlan (f : Flags) (certFile keyFile : String) : ServePlan :=
  let validDomains := f.domains ≠ ""
  if validDomains then
    let domainList := Split f.domains ','
    .managedACME f.fromURL f.cacheDir domainList "" ""
  else .staticFiles f.fromURL certFile keyFile

/-- A process that got through startup: the final domain map and `-to`
value, the mux handler, the port-80 handler when `-redirectHTTP` is set,
and the TLS listener. -/
structure Program (U : Type) where
  domainToProxyMap : GoMap
  toURL : String
  handler : Request → Outcome U
  redirector : Option (Request → Outcome U)
  serve : ServePlan

/-- The outcome of startup: the world it leaves and either the serving
program or the message of the `log.Fatal` that ended the process. -/
structure Run (U : Type) where
  world : World
  result : Except String (Program U)

/-- The function `main`, from `flag.Parse()` to the listeners. -/
def main {U : Type} (env : Env U) (f : Flags) (w : World) : Run U :=
  match parseDomainMap f.domainMap domainToProxyMap with
  | .error msg => { world := w, result := .error msg }
  | .ok m =>
    let step := selfSigned env f.certFile f.keyFile f.domains w
    match step.result with
    | .error msg => { world := step.world, result := .error msg }
    | .ok (certFile, keyFile) =>
      { world := step.world,
        result := .ok
          { domainToProxyMap := m,
            toURL := normalizeTo f.toURL,
            handler := muxHandler env.urlParse m,
            redirector := if f.redirectHTTP then some (redirectTLS m) else none,
            serve := servePlan f certFile keyFile } }

/-- What the encrypted listener does with a request, if startup got there. -/
def Run.dispatch {U : Type} (run : Run U) (r : Request) : Option (Outcome U) :=
  match run.result with
  | .ok p => some (p.handler r)
  | .error _ => none

/-- What the plaintext listener does with a request, if there is one. -/
def Run.plainDispatch {U : Type} (run : Run U) (r : Request) : Option (Outcome U) :=
  match run.result with
  | .ok p => p.redirector.map fun h => h r
  | .error _ => none

/-- The TLS listener startup ends in, if it gets there. -/
def Run.serve {U : Type} (run : Run U) : Option ServePlan :=
  match run.result with
  | .ok p => some p.serve
  | .error _ => none

/-- The final domain map, if startup gets through. -/
def Run.domainMap {U : Type} (run : Run U) : Option GoMap :=
  match run.result with
  | .ok p => some p.domainToProxyMap
  | .error _ => none

/-- The final value of `-to`, if startup gets through. -/
def Run.toURL {U : Type} (run : Run U) : Option String :=
  match run.result with
  | .ok p => some p.toURL
  | .error _ => none

/-- The message of the `log.Fatal` that ended startup, if one did. -/
def Run.fatal {U : Type} (run : Run U) : Option String :=
  match run.result with
  | .ok _ => none
  | .error msg => some msg

/-! ## The format of the `-domainMap` flag -/

/-- The flag value `d_1=u_1,...,d_n=u_n` for a list of (domain, backend)
pairs, as the flag's usage text describes it. -/
def renderPairs : List (String × String) → String
  | [] => ""
  | [p] => p.1 ++ "=" ++ p.2
  | p :: q :: rest => p.1 ++ "=" ++ p.2 ++ "," ++ renderPairs (q :: rest)

/-- The (domain, backend) pair an entry `domain=backend` stands for. -/
def entryPair (e : String) : Option (String × String) :=
  match Split e '=' with
  | [d, u] => some (d, u)
  | _ => none

/-- The pairs a user supplies through `-domainMap`: one per comma-separated
entry of the form `domain=backend`; the empty flag value supplies none. -/
def userPairs (s : String) : List (String × String) :=
  if s = "" then [] else (Split s ',').filterMap entryPair

/-- A map updated with a list of pairs, in order. -/
def GoMap.update (m : GoMap) (pairs : List (String × String)) : GoMap :=
  pairs.foldl (fun acc p => acc.set p.1 p.2) m

/-- An environment for running the model on concrete inputs: the front of
`url.Parse` as parser, a generator that returns fixed material, and a file
system in which every file can be created. -/
def sampleEnv : Env (String × String) :=
  { urlParse := urlParseFront,
    genKeys := fun _ => .ok ([9], [8], [7]),
    createOk := fun _ => true }

/-- Flags that supply a certificate file, a key file and CA domains. -/
def acmeFlags : Flags :=
  { toURL := "http://127.0.0.1:80", fromURL := "127.0.0.1:443", certFile := "c.pem",
    keyFile := "k.pem", domains := "a.com,b.com", redirectHTTP := false, cacheDir := "certs",
    domainMap := "" }

/-- A world without files in which the generator has not been called. -/
def emptyWorld : World := { files := fun _ => none, genCalls := 0 }

/-- A world in which `cert.pem` and `key.pem` already exist. -/
def worldWithCerts : World :=
  { files := fun p =>
      if p = "cert.pem" then some [1] else if p = "key.pem" then some [2] else none,
    genCalls := 0 }

/-- Flags whose `-domainMap` replaces one default backend and adds a domain. -/
def overrideFlags : Flags :=
  { toURL := "http://127.0.0.1:80", fromURL := "127.0.0.1:443", certFile := "", keyFile := "",
    domains := "", redirectHTTP := true, cacheDir := "certs",
    domainMap := "example1.com=http://10.0.0.1:9000,my.org=http://127.0.0.1:3000" }

/-! ## The domain map: lookup and update -/

theorem GoMap.get_eq_none_of_not_mem (m : GoMap) (k : String)
    (h : ∀ k' ∈ m.keys, k' ≠ k) : m.get k = none := by
  induction m with
  | nil => rfl
  | cons p rest ih =>
    obtain ⟨k', v⟩ := p
    have hk : k' ≠ k := h k' (by simp [GoMap.keys])
    have hrest : ∀ k'' ∈ GoMap.keys rest, k'' ≠ k := fun k'' hk'' =>
      h k'' (by simp only [GoMap.keys, List.map_cons, List.mem_cons] at hk'' ⊢; exact Or.inr hk'')
    simp [GoMap.get, hk, ih hrest]

theorem GoMap.mem_keys_of_get (m : GoMap) (k v : String) (h : m.get k = some v) :
    k ∈ m.keys := by
  induction m with
  | nil => simp [GoMap.get] at h
  | cons p rest ih =>
    obtain ⟨k', v'⟩ := p
    by_cases hk : k' = k
    · simp [GoMap.keys, hk]
    · simp only [GoMap.get, hk, if_false] at h
      have := ih h
      simp only [GoMap.keys, List.map_cons, List.mem_cons] at this ⊢
      exact Or.inr this

theorem GoMap.get_set_same (m : GoMap) (k v : String) : (m.set k v).get k = some v := by
  induction m with
  | nil => simp [GoMap.set, GoMap.get]
  | cons p rest ih =>
    obtain ⟨k', v'⟩ := p
    by_cases hk : k' = k
    · simp [GoMap.set, GoMap.get, hk]
    · simp [GoMap.set, GoMap.get, hk, ih]

theorem GoMap.get_set_other (m : GoMap) (k v k₀ : String) (h : k ≠ k₀) :
    (m.set k v).get k₀ = m.get k₀ := by
  induction m with
  | nil => simp [GoMap.set, GoMap.get, h]
  | cons p rest ih =>
    obtain ⟨k', v'⟩ := p
    by_cases hk : k' = k
    · subst hk
      simp [GoMap.set, GoMap.get, h]
    · by_cases hk₀ : k' = k₀
      · subst hk₀
        simp [GoMap.set, GoMap.get, hk]
      · simp [GoMap.set, GoMap.get, hk, hk₀, ih]

theorem GoMap.mem_keys_set (m : GoMap) (k v k₀ : String) :
    k₀ ∈ (m.set k v).keys ↔ k₀ = k ∨ k₀ ∈ m.keys := by
  induction m with
  | nil => simp [GoMap.set, GoMap.keys]
  | cons p rest ih =>
    obtain ⟨k', v'⟩ := p
    simp only [GoMap.keys] at ih
    by_cases hk : k' = k
    · subst hk
      simp [GoMap.set, GoMap.keys]
    · simp only [GoMap.set, hk, if_false, GoMap.keys, List.map_cons, List.mem_cons, ih]
      tauto

theorem GoMap.nodup_keys_set (m : GoMap) (k v : String) (h : m.keys.Nodup) :
    (m.set k v).keys.Nodup := by
  induction m with
  | nil => simp [GoMap.set, GoMap.keys]
  | cons p rest ih =>
    obtain ⟨k', v'⟩ := p
    simp only [GoMap.keys, List.map_cons, List.nodup_cons] at h
    by_cases hk : k' = k
    · subst hk
      simpa [GoMap.set, GoMap.keys] using h
    · have hmem := GoMap.mem_keys_set rest k v k'
      have hnd := ih h.2
      simp only [GoMap.keys] at hmem hnd
      simp only [GoMap.set, hk, if_false, GoMap.keys, List.map_cons, List.nodup_cons]
      refine ⟨?_, hnd⟩
      rw [hmem]
      rintro (h1 | h1)
      · exact hk h1
      · exact h.1 h1

theorem GoMap.update_nil (m : GoMap) : m.update [] = m := rfl

theorem GoMap.update_cons (m : GoMap) (p : String × String) (ps : List (String × String)) :
    m.update (p :: ps) = (m.set p.1 p.2).update ps := rfl

theorem GoMap.update_append (m : GoMap) (ps qs : List (String × String)) :
    m.update (ps ++ qs) = (m.update ps).update qs := by
  simp [GoMap.update, List.foldl_append]

theorem GoMap.nodup_keys_update (m : GoMap) (ps : List (String × String))
    (h : m.keys.Nodup) : (m.update ps).keys.Nodup := by
  induction ps generalizing m with
  | nil => exact h
  | cons p ps ih =>
    rw [GoMap.update_cons]
    exact ih _ (GoMap.nodup_keys_set m p.1 p.2 h)

theorem GoMap.mem_keys_update (m : GoMap) (ps : List (String × String)) (k : String)
    (h : k ∈ m.keys) : k ∈ (m.update ps).keys := by
  induction ps generalizing m with
  | nil => exact h
  | cons p ps ih =>
    rw [GoMap.update_cons]
    exact ih _ ((GoMap.mem_keys_set m p.1 p.2 k).2 (Or.inr h))

theorem GoMap.get_update_of_not_mem (m : GoMap) (ps : List (String × String)) (k : String)
    (h : ∀ p ∈ ps, p.1 ≠ k) : (m.update ps).get k = m.get k := by
  induction ps generalizing m with
  | nil => rfl
  | cons p ps ih =>
    rw [GoMap.update_cons, ih _ (fun q hq => h q (List.mem_cons_of_mem _ hq))]
    exact GoMap.get_set_other m p.1 p.2 k (h p (List.mem_cons_self _ _))

theorem GoMap.get_update_last (m : GoMap) (pre suf : List (String × String)) (k u : String)
    (h : ∀ p ∈ suf, p.1 ≠ k) : (m.update (pre ++ (k, u) :: suf)).get k = some u := by
  rw [GoMap.update_append, GoMap.update_cons, GoMap.get_update_of_not_mem _ suf k h]
  exact GoMap.get_set_same _ k u

/-! ## Splitting -/

theorem splitChars_ne_nil (sep : Char) (l : List Char) : splitChars sep l ≠ [] := by
  induction l with
  | nil => simp [splitChars]
  | cons c cs ih =>
    unfold splitChars
    by_cases hc : c = sep
    · simp [hc]
    · simp only [hc, if_false]
      cases hs : splitChars sep cs with
      | nil => exact absurd hs ih
      | cons piece more => simp

theorem length_splitChars (sep : Char) (l : List Char) :
    (splitChars sep l).length = l.count sep + 1 := by
  induction l with
  | nil => simp [splitChars]
  | cons c cs ih =>
    unfold splitChars
    by_cases hc : c = sep
    · subst hc
      simp [ih]
    · have hne : (c == sep) = false := by simpa using hc
      simp only [hc, if_false]
      cases hs : splitChars sep cs with
      | nil => exact absurd hs (splitChars_ne_nil sep cs)
      | cons piece more =>
        rw [hs] at ih
        simp only [List.length_cons] at ih ⊢
        rw [List.count_cons, hne]
        simpa using ih

theorem splitChars_of_not_mem (sep : Char) (a : List Char) (h : sep ∉ a) :
    splitChars sep a = [a] := by
  induction a with
  | nil => rfl
  | cons c cs ih =>
    have hc : c ≠ sep := fun e => h (by simp [e])
    have hcs : sep ∉ cs := fun e => h (List.mem_cons_of_mem _ e)
    simp [splitChars, hc, ih hcs]

theorem splitChars_append_sep (sep : Char) (a b : List Char) (h : sep ∉ a) :
    splitChars sep (a ++ sep :: b) = a :: splitChars sep b := by
  induction a with
  | nil => simp [splitChars]
  | cons c cs ih =>
    have hc : c ≠ sep := fun e => h (by simp [e])
    have hcs : sep ∉ cs := fun e => h (List.mem_cons_of_mem _ e)
    simp [splitChars, hc, ih hcs]

theorem length_Split (s : String) (sep : Char) :
    (Split s sep).length = s.data.count sep + 1 := by
  simp [Split, length_splitChars]

/-- An entry splits at `=` into exactly two parts iff it holds exactly one `=`. -/
theorem entry_two_parts_iff (e : String) :
    (∃ d u, Split e '=' = [d, u]) ↔ e.data.count '=' = 1 := by
  have hlen := length_Split e '='
  constructor
  · rintro ⟨d, u, h⟩
    rw [h] at hlen
    simp at hlen
    omega
  · intro h
    rw [h] at hlen
    match hs : Split e '=' with
    | [] => rw [hs] at hlen; simp at hlen
    | [_] => rw [hs] at hlen; simp at hlen
    | [d, u] => exact ⟨d, u, rfl⟩
    | _ :: _ :: _ :: _ => rw [hs] at hlen; simp at hlen

/-! ## Parsing the domain map -/

theorem parseMappings_cons_pair (e : String) (rest : List String) (m : GoMap) (d u : String)
    (h : Split e '=' = [d, u]) :
    parseMappings (e :: rest) m = parseMappings rest (m.set d u) := by
  rw [parseMappings, h]

theorem parseMappings_cons_bad (e : String) (rest : List String) (m : GoMap)
    (h : e.data.count '=' ≠ 1) :
    parseMappings (e :: rest) m = .error ("Invalid domain mapping: " ++ e) := by
  rw [parseMappings]
  split
  · rename_i d u hs
    exact absurd ((entry_two_parts_iff e).1 ⟨d, u, hs⟩) h
  · rfl

theorem entryPair_of_split (e d u : String) (h : Split e '=' = [d, u]) :
    entryPair e = some (d, u) := by
  rw [entryPair, h]

theorem parseMappings_error (es : List String) (m : GoMap) (msg : String)
    (h : parseMappings es m = .error msg) :
    ∃ e ∈ es, e.data.count '=' ≠ 1 ∧ msg = "Invalid domain mapping: " ++ e := by
  induction es generalizing m with
  | nil => simp [parseMappings] at h
  | cons e rest ih =>
    by_cases hc : e.data.count '=' = 1
    · obtain ⟨d, u, hs⟩ := (entry_two_parts_iff e).2 hc
      rw [parseMappings_cons_pair e rest m d u hs] at h
      obtain ⟨e', he', hcount, hmsg⟩ := ih _ h
      exact ⟨e', List.mem_cons_of_mem _ he', hcount, hmsg⟩
    · rw [parseMappings_cons_bad e rest m hc] at h
      injection h with h
      exact ⟨e, List.mem_cons_self _ _, hc, h.symm⟩

theorem parseMappings_ok (es : List String) (m m' : GoMap)
    (h : parseMappings es m = .ok m') :
    (∀ e ∈ es, e.data.count '=' = 1) ∧ m' = m.update (es.filterMap entryPair) := by
  induction es generalizing m with
  | nil =>
    simp only [parseMappings, Except.ok.injEq] at h
    simp [GoMap.update, h]
  | cons e rest ih =>
    by_cases hc : e.data.count '=' = 1
    · obtain ⟨d, u, hs⟩ := (entry_two_parts_iff e).2 hc
      rw [parseMappings_cons_pair e rest m d u hs] at h
      obtain ⟨hall, hm⟩ := ih _ h
      refine ⟨?_, ?_⟩
      · intro e' he'
        rcases List.mem_cons.1 he' with h1 | h1
        · rw [h1]
          exact hc
        · exact hall e' h1
      · rw [hm, List.filterMap_cons, entryPair_of_split e d u hs, GoMap.update_cons]
    · rw [parseMappings_cons_bad e rest m hc] at h
      cases h

theorem parseMappings_total (es : List String) (m : GoMap)
    (h : ∀ e ∈ es, e.data.count '=' = 1) :
    parseMappings es m = .ok (m.update (es.filterMap entryPair)) := by
  cases hres : parseMappings es m with
  | error msg =>
    obtain ⟨e, he, hc, _⟩ := parseMappings_error es m msg hres
    exact absurd (h e he) hc
  | ok m' => rw [(parseMappings_ok es m m' hres).2]

/-- The flag value is not empty exactly when its character list is not. -/
theorem ne_empty_iff_data (s : String) : s ≠ "" ↔ s.data ≠ [] := by
  constructor
  · intro h hd
    apply h
    cases s
    simp only at hd
    subst hd
    rfl
  · intro h hs
    apply h
    rw [hs]

theorem parseDomainMap_ok (s : String) (m m' : GoMap) (h : parseDomainMap s m = .ok m') :
    m' = m.update (userPairs s) := by
  unfold parseDomainMap at h
  unfold userPairs
  by_cases hs : s = ""
  · simp only [hs, ne_eq, not_true_eq_false, if_false, Except.ok.injEq] at h
    simp [hs, GoMap.update, h]
  · simp only [ne_eq, hs, not_false_eq_true, if_true] at h
    simp only [hs, if_false]
    exact (parseMappings_ok _ m m' h).2

theorem entry_data (d u : String) : (d ++ "=" ++ u).data = d.data ++ '=' :: u.data := by
  simp [String.data_append]

theorem Split_entry (d u : String) (hd : '=' ∉ d.data) (hu : '=' ∉ u.data) :
    Split (d ++ "=" ++ u) '=' = [d, u] := by
  simp [Split, entry_data, splitChars_append_sep _ _ _ hd, splitChars_of_not_mem _ _ hu]

theorem count_entry (d u : String) (hd : '=' ∉ d.data) (hu : '=' ∉ u.data) :
    (d ++ "=" ++ u).data.count '=' = 1 :=
  (entry_two_parts_iff _).1 ⟨d, u, Split_entry d u hd hu⟩

theorem data_renderPairs_cons (p q : String × String) (rest : List (String × String)) :
    (renderPairs (p :: q :: rest)).data =
      (p.1 ++ "=" ++ p.2).data ++ ',' :: (renderPairs (q :: rest)).data := by
  simp [renderPairs, String.data_append]

theorem renderPairs_ne_empty (pairs : List (String × String)) (hne : pairs ≠ []) :
    renderPairs pairs ≠ "" := by
  rw [ne_empty_iff_data]
  match pairs, hne with
  | [p], _ => simp [renderPairs, String.data_append]
  | p :: q :: rest, _ => simp [data_renderPairs_cons, String.data_append]

theorem Split_renderPairs (pairs : List (String × String)) (hne : pairs ≠ [])
    (hcomma : ∀ p ∈ pairs, ',' ∉ p.1.data ∧ ',' ∉ p.2.data) :
    Split (renderPairs pairs) ',' = pairs.map fun p => p.1 ++ "=" ++ p.2 := by
  induction pairs with
  | nil => exact absurd rfl hne
  | cons p rest ih =>
    have hp := hcomma p (List.mem_cons_self _ _)
    have hentry : ',' ∉ (p.1 ++ "=" ++ p.2).data := by
      rw [entry_data]
      simp only [List.mem_append, List.mem_cons, not_or]
      exact ⟨hp.1, by decide, hp.2⟩
    cases rest with
    | nil =>
      simp only [renderPairs, Split, List.map_cons, List.map_nil]
      rw [splitChars_of_not_mem _ _ hentry]
      rfl
    | cons q rest' =>
      have ih' := ih (List.cons_ne_nil _ _)
        (fun x hx => hcomma x (List.mem_cons_of_mem _ hx))
      simp only [Split] at ih' ⊢
      rw [data_renderPairs_cons, splitChars_append_sep _ _ _ hentry, List.map_cons, ih']
      rfl

theorem filterMap_entryPair_render (pairs : List (String × String))
    (heq : ∀ p ∈ pairs, '=' ∉ p.1.data ∧ '=' ∉ p.2.data) :
    (pairs.map fun p => p.1 ++ "=" ++ p.2).filterMap entryPair = pairs := by
  induction pairs with
  | nil => rfl
  | cons p rest ih =>
    have hp := heq p (List.mem_cons_self _ _)
    rw [List.map_cons, List.filterMap_cons,
      entryPair_of_split _ p.1 p.2 (Split_entry p.1 p.2 hp.1 hp.2),
      ih (fun x hx => heq x (List.mem_cons_of_mem _ hx))]

theorem parseDomainMap_render (pairs : List (String × String)) (m : GoMap) (hne : pairs ≠ [])
    (hclean : ∀ p ∈ pairs,
      ',' ∉ p.1.data ∧ '=' ∉ p.1.data ∧ ',' ∉ p.2.data ∧ '=' ∉ p.2.data) :
    parseDomainMap (renderPairs pairs) m = .ok (m.update pairs) := by
  unfold parseDomainMap
  rw [if_pos (renderPairs_ne_empty pairs hne),
    Split_renderPairs pairs hne (fun p hp => ⟨(hclean p hp).1, (hclean p hp).2.2.1⟩)]
  rw [parseMappings_total]
  · rw [filterMap_entryPair_render pairs
      (fun p hp => ⟨(hclean p hp).2.1, (hclean p hp).2.2.2⟩)]
  · intro e he
    obtain ⟨p, hp, rfl⟩ := List.mem_map.1 he
    exact count_entry p.1 p.2 (hclean p hp).2.1 (hclean p hp).2.2.2

theorem nodup_keys_domainToProxyMap : GoMap.keys domainToProxyMap |>.Nodup := by decide

theorem main_domainMap {U : Type} (env : Env U) (f : Flags) (w : World) (m : GoMap)
    (h : (main env f w).domainMap = some m) :
    parseDomainMap f.domainMap domainToProxyMap = .ok m := by
  unfold Run.domainMap main at h
  cases hm : parseDomainMap f.domainMap domainToProxyMap with
  | error msg => simp [hm] at h
  | ok m' =>
    simp only [hm] at h
    cases hres : (selfSigned env f.certFile f.keyFile f.domains w).result with
    | error msg => simp [hres] at h
    | ok paths =>
      simp only [hres, Option.some.injEq] at h
      rw [h]

/-! ## Dispatch -/

/-- C1. A request whose Host is not, as an exact string, a key of the domain
map is answered by `http.Error(w, "Forbidden", 403)` on both the encrypted
path and the plaintext redirector; no proxy is built and no redirect is
issued.  A key in another letter case, a key with a `:port` suffix and a
subdomain of a key are such hosts. -/
theorem C1_unknown_host_forbidden {U : Type} (parse : String → Option U) (M : GoMap)
    (r : Request) (h : ∀ k ∈ M.keys, k ≠ r.Host) :
    muxHandler parse M r = .httpError "Forbidden" 403 ∧
    (redirectTLS M r : Outcome U) = .httpError "Forbidden" 403 ∧
    (∀ u, muxHandler parse M r ≠ .proxied u) ∧
    (∀ url code, (redirectTLS M r : Outcome U) ≠ .redirected url code) := by
  have hget : M.get r.Host = none := GoMap.get_eq_none_of_not_mem M r.Host h
  have h1 : muxHandler parse M r = .httpError "Forbidden" 403 := by
    simp [muxHandler, hget, StatusForbidden]
  have h2 : (redirectTLS M r : Outcome U) = .httpError "Forbidden" 403 := by
    simp [redirectTLS, hget, StatusForbidden]
  refine ⟨h1, h2, ?_, ?_⟩
  · intro u hu
    rw [h1] at hu
    cases hu
  · intro url code hu
    rw [h2] at hu
    cases hu

theorem C1_unknown_host_forbidden_witness :
    (∀ k ∈ GoMap.keys domainToProxyMap, k ≠ "example1.com:443") ∧
    muxHandler urlParseFront domainToProxyMap ⟨"example1.com:443", "/"⟩
      = .httpError "Forbidden" 403 ∧
    (redirectTLS domainToProxyMap ⟨"Example1.com", "/"⟩ : Outcome (String × String))
      = .httpError "Forbidden" 403 ∧
    (redirectTLS domainToProxyMap ⟨"www.example1.com", "/"⟩ : Outcome (String × String))
      = .httpError "Forbidden" 403 :=
  ⟨by decide,
   (C1_unknown_host_forbidden urlParseFront domainToProxyMap ⟨"example1.com:443", "/"⟩
      (by decide)).1,
   (C1_unknown_host_forbidden urlParseFront domainToProxyMap ⟨"Example1.com", "/"⟩
      (by decide)).2.1,
   (C1_unknown_host_forbidden urlParseFront domainToProxyMap ⟨"www.example1.com", "/"⟩
      (by decide)).2.1⟩

/-- C2 as stated fails: the backend `:` stored for `a.com` (as the flag
`-domainMap a.com=:` does) has no scheme, `url.Parse` returns an error, and
the handler answers 500 instead of proxying. -/
theorem C2_counterexample :
    (main sampleEnv { defaultFlags with domainMap := "a.com=:" } emptyWorld).domainMap.map
        (fun m => GoMap.get m "a.com") = some (some ":") ∧
    (main sampleEnv { defaultFlags with domainMap := "a.com=:" } emptyWorld).dispatch
        ⟨"a.com", "/"⟩ = some (.httpError "Internal Server Error" 500) ∧
    muxHandler urlParseFront [("a.com", ":")] ⟨"a.com", "/"⟩
      = .httpError "Internal Server Error" 500 := by
  refine ⟨by decide, by decide, by decide⟩

/-- C2 (amended). For a pair (H, B) of the domain map, the encrypted-path
handler never answers 403 to a request for H; when `url.Parse` accepts B it
hands the request to a reverse proxy built for the parsed B and writes no
response of its own, and when `url.Parse` rejects B it answers 500. -/
theorem C2_known_host_forwarded {U : Type} (parse : String → Option U) (M : GoMap)
    (r : Request) (B : String) (h : M.get r.Host = some B) :
    (∀ u, parse B = some u → muxHandler parse M r = .proxied u) ∧
    (parse B = none →
      muxHandler parse M r = .httpError "Internal Server Error" 500) ∧
    (∀ msg, muxHandler parse M r ≠ .httpError msg 403) := by
  refine ⟨?_, ?_, ?_⟩
  · intro u hu
    simp [muxHandler, h, hu]
  · intro hu
    simp [muxHandler, h, hu, StatusInternalServerError]
  · intro msg
    cases hp : parse B with
    | none => simp [muxHandler, h, hp, StatusInternalServerError]
    | some u => simp [muxHandler, h, hp]

theorem C2_known_host_forwarded_witness :
    GoMap.get domainToProxyMap "example1.com" = some "http://127.0.0.1:8081" ∧
    muxHandler urlParseFront domainToProxyMap ⟨"example1.com", "/x"⟩
      = .proxied ("http", "//127.0.0.1:8081") :=
  ⟨by decide,
   (C2_known_host_forwarded urlParseFront domainToProxyMap ⟨"example1.com", "/x"⟩
      "http://127.0.0.1:8081" (by decide)).1 ("http", "//127.0.0.1:8081") (by decide)⟩

theorem GoMap.get_isSome_of_mem (M : GoMap) (k : String) (h : k ∈ M.keys) :
    ∃ v, M.get k = some v := by
  induction M with
  | nil => simp [GoMap.keys] at h
  | cons p rest ih =>
    obtain ⟨k', v⟩ := p
    by_cases hk : k' = k
    · exact ⟨v, by simp [GoMap.get, hk]⟩
    · simp only [GoMap.keys, List.map_cons, List.mem_cons] at h
      rcases h with h | h
      · exact absurd h.symm hk
      · obtain ⟨v', hv'⟩ := ih h
        exact ⟨v', by simp [GoMap.get, hk, hv']⟩

theorem hexEscapeChars_ascii (l : List Char) (h : ∀ c ∈ l, c.toNat < 128) :
    hexEscapeChars l = l := by
  induction l with
  | nil => rfl
  | cons c cs ih =>
    have hc : c.toNat < 128 := h c (List.mem_cons_self _ _)
    simp [hexEscapeChars, escapeChar, hc, ih (fun x hx => h x (List.mem_cons_of_mem _ hx))]

theorem hexEscapeNonASCII_ascii (s : String) (h : ∀ c ∈ s.data, c.toNat < 128) :
    hexEscapeNonASCII s = s := by
  unfold hexEscapeNonASCII
  rw [hexEscapeChars_ascii _ h]

theorem splitChars_append_head (sep : Char) (a b : List Char) (h : sep ∉ a) :
    splitChars sep (a ++ b) =
      (a ++ (splitChars sep b).headD []) :: (splitChars sep b).tail := by
  induction a with
  | nil =>
    cases hs : splitChars sep b with
    | nil => exact absurd hs (splitChars_ne_nil sep b)
    | cons piece more => simp [hs]
  | cons c cs ih =>
    have hc : c ≠ sep := fun e => h (by simp [e])
    have hcs : sep ∉ cs := fun e => h (List.mem_cons_of_mem _ e)
    simp [splitChars, hc, ih hcs]

/-- A target that begins with `https://` is not taken for a relative one:
the front of `url.Parse` rejects it or finds the scheme `https`. -/
theorem urlParseFront_https (t : String) :
    urlParseFront ("https://" ++ t) = none ∨
      ∃ rest, urlParseFront ("https://" ++ t) = some ("https", rest) := by
  have hsplit : (Split ("https://" ++ t) '#').headD "" =
      String.mk ("https://".data ++ (splitChars '#' t.data).headD []) := by
    unfold Split
    rw [String.data_append, splitChars_append_head _ _ _ (by decide)]
    rfl
  unfold urlParseFront
  simp only [hsplit]
  by_cases hctl : stringContainsCTLByte
      (String.mk ("https://".data ++ (splitChars '#' t.data).headD [])) = true
  · left
    rw [if_pos hctl]
  · right
    refine ⟨String.mk ('/' :: '/' :: (splitChars '#' t.data).headD []), ?_⟩
    have hstar : String.mk ("https://".data ++ (splitChars '#' t.data).headD []) ≠ "*" := by
      intro heq
      have := congrArg String.data heq
      simp at this
    rw [if_neg hctl, if_neg hstar]
    simp [getScheme, getSchemeFrom]

theorem redirectLocation_https (t : String) :
    redirectLocation ("https://" ++ t) = some (hexEscapeNonASCII ("https://" ++ t)) := by
  unfold redirectLocation
  rcases urlParseFront_https t with h | ⟨rest, h⟩
  · rw [h]
  · rw [h]
    split
    · rename_i heq
      simp at heq
    · rfl

/-- C3 as stated fails: for the configured host `example1.com` and the
request target `/café` the `Location` header is not the target verbatim;
the two bytes of `é` are written as `%c3%a9`. -/
theorem C3_counterexample :
    "example1.com" ∈ GoMap.keys domainToProxyMap ∧
    (redirectTLS domainToProxyMap ⟨"example1.com", "/café"⟩ : Outcome Unit).location
      = some "https://example1.com/caf%c3%a9" ∧
    (redirectTLS domainToProxyMap ⟨"example1.com", "/café"⟩ : Outcome Unit).location
      ≠ some ("https://" ++ "example1.com" ++ "/café") := by
  refine ⟨by decide, by decide, by decide⟩

/-- C3 (amended). For a host H of the domain map and any request target u,
the plaintext redirector calls `http.Redirect` with `"https://" ++ H ++ u`
and 301: the status is 301 and the `Location` header is that string with
every non-ASCII byte written as `%` and its hexadecimal value; when H and u
are ASCII the header is `"https://" ++ H ++ u` itself. -/
theorem C3_redirect_location {U : Type} (M : GoMap) (r : Request)
    (h : r.Host ∈ M.keys) :
    (redirectTLS M r : Outcome U) =
      .redirected ("https://" ++ r.Host ++ r.RequestURI) 301 ∧
    (redirectTLS M r : Outcome U).status = some 301 ∧
    (redirectTLS M r : Outcome U).location =
      some (hexEscapeNonASCII ("https://" ++ r.Host ++ r.RequestURI)) ∧
    ((∀ c ∈ r.Host.data, c.toNat < 128) → (∀ c ∈ r.RequestURI.data, c.toNat < 128) →
      (redirectTLS M r : Outcome U).location =
        some ("https://" ++ r.Host ++ r.RequestURI)) := by
  obtain ⟨B, hget⟩ := GoMap.get_isSome_of_mem M r.Host h
  have hcall : (redirectTLS M r : Outcome U) =
      .redirected ("https://" ++ r.Host ++ r.RequestURI) 301 := by
    simp [redirectTLS, hget, StatusMovedPermanently]
  have hloc : (redirectTLS M r : Outcome U).location =
      some (hexEscapeNonASCII ("https://" ++ r.Host ++ r.RequestURI)) := by
    rw [hcall, String.append_assoc]
    exact redirectLocation_https (r.Host ++ r.RequestURI)
  refine ⟨hcall, by rw [hcall]; rfl, hloc, ?_⟩
  intro hH hU
  rw [hloc, hexEscapeNonASCII_ascii]
  intro c hc
  simp only [String.data_append, List.mem_append] at hc
  rcases hc with (hc | hc) | hc
  · revert c
    decide
  · exact hH c hc
  · exact hU c hc

theorem C3_redirect_location_witness :
    "example1.com" ∈ GoMap.keys domainToProxyMap ∧
    (redirectTLS domainToProxyMap ⟨"example1.com", "/a?b=1"⟩ : Outcome Unit).status
      = some 301 ∧
    (redirectTLS domainToProxyMap ⟨"example1.com", "/a?b=1"⟩ : Outcome Unit).location
      = some "https://example1.com/a?b=1" :=
  ⟨by decide,
   (C3_redirect_location domainToProxyMap ⟨"example1.com", "/a?b=1"⟩ (by decide)).2.1,
   ((C3_redirect_location domainToProxyMap ⟨"example1.com", "/a?b=1"⟩ (by decide)).2.2.2
      (by decide) (by decide)).trans (by decide)⟩

/-! ## The domain map built at startup -/

/-- C6. For a non-empty list of pairs whose domains and backends hold no
`,` and no `=`, parsing the flag value `d_1=u_1,...,d_n=u_n` succeeds; the
resulting map has unique keys and sends every `d_i` to the backend of its
last occurrence in the list. -/
theorem C6_parse_wellformed (pairs : List (String × String)) (hne : pairs ≠ [])
    (hclean : ∀ p ∈ pairs,
      ',' ∉ p.1.data ∧ '=' ∉ p.1.data ∧ ',' ∉ p.2.data ∧ '=' ∉ p.2.data) :
    ∃ m, parseDomainMap (renderPairs pairs) domainToProxyMap = .ok m ∧
      m.keys.Nodup ∧
      (∀ pre d u suf, pairs = pre ++ (d, u) :: suf → (∀ p ∈ suf, p.1 ≠ d) →
        m.get d = some u) := by
  refine ⟨domainToProxyMap.update pairs,
    parseDomainMap_render pairs domainToProxyMap hne hclean,
    GoMap.nodup_keys_update _ _ nodup_keys_domainToProxyMap, ?_⟩
  intro pre d u suf hpairs hsuf
  rw [hpairs]
  exact GoMap.get_update_last _ pre suf d u hsuf

theorem C6_parse_wellformed_witness :
    ∃ m, parseDomainMap
        "example1.com=http://127.0.0.1:8081,example2.com=http://127.0.0.1:8082"
        domainToProxyMap = .ok m ∧
      m.keys.Nodup ∧
      m.get "example1.com" = some "http://127.0.0.1:8081" ∧
      m.get "example2.com" = some "http://127.0.0.1:8082" := by
  obtain ⟨m, h1, h2, h3⟩ := C6_parse_wellformed
    [("example1.com", "http://127.0.0.1:8081"), ("example2.com", "http://127.0.0.1:8082")]
    (by decide) (by decide)
  exact ⟨m, h1, h2,
    h3 [] "example1.com" "http://127.0.0.1:8081"
      [("example2.com", "http://127.0.0.1:8082")] rfl (by decide),
    h3 [("example1.com", "http://127.0.0.1:8081")] "example2.com" "http://127.0.0.1:8082"
      [] rfl (by decide)⟩

/-- C7. When startup gets through, the final domain map is the default map
updated, in order, with the pairs supplied through `-domainMap`: both
default keys are present, a default key no supplied pair names keeps its
default backend, and a key (default or not) has the backend of the last
supplied pair that names it. -/
theorem C7_defaults_seeded {U : Type} (env : Env U) (f : Flags) (w : World) (m : GoMap)
    (h : (main env f w).domainMap = some m) :
    m = GoMap.update
      [("example1.com", "http://127.0.0.1:8081"), ("example2.com", "http://127.0.0.1:8082")]
      (userPairs f.domainMap) ∧
    "example1.com" ∈ m.keys ∧ "example2.com" ∈ m.keys ∧
    ((∀ p ∈ userPairs f.domainMap, p.1 ≠ "example1.com") →
      m.get "example1.com" = some "http://127.0.0.1:8081") ∧
    ((∀ p ∈ userPairs f.domainMap, p.1 ≠ "example2.com") →
      m.get "example2.com" = some "http://127.0.0.1:8082") ∧
    (∀ pre k u suf, userPairs f.domainMap = pre ++ (k, u) :: suf → (∀ p ∈ suf, p.1 ≠ k) →
      m.get k = some u) := by
  have hm : m = domainToProxyMap.update (userPairs f.domainMap) :=
    parseDomainMap_ok _ _ _ (main_domainMap env f w m h)
  refine ⟨hm, ?_, ?_, ?_, ?_, ?_⟩
  · rw [hm]
    exact GoMap.mem_keys_update _ _ _ (by decide)
  · rw [hm]
    exact GoMap.mem_keys_update _ _ _ (by decide)
  · intro hno
    rw [hm, GoMap.get_update_of_not_mem _ _ _ hno]
    decide
  · intro hno
    rw [hm, GoMap.get_update_of_not_mem _ _ _ hno]
    decide
  · intro pre k u suf hpairs hsuf
    rw [hm, hpairs]
    exact GoMap.get_update_last _ pre suf k u hsuf

theorem C7_defaults_seeded_witness :
    (main sampleEnv overrideFlags emptyWorld).domainMap =
      some [("example1.com", "http://10.0.0.1:9000"),
            ("example2.com", "http://127.0.0.1:8082"),
            ("my.org", "http://127.0.0.1:3000")] ∧
    GoMap.get [("example1.com", "http://10.0.0.1:9000"),
               ("example2.com", "http://127.0.0.1:8082"),
               ("my.org", "http://127.0.0.1:3000")] "example2.com"
      = some "http://127.0.0.1:8082" :=
  ⟨by decide,
   (C7_defaults_seeded sampleEnv overrideFlags emptyWorld _ (by decide)).2.2.2.2.1 (by decide)⟩

/-- C8. For a non-empty flag value, parsing is fatal exactly when some
comma-separated entry does not hold exactly one `=`, and the message names
such an entry.  Hence an empty entry, an entry without `=` and an entry with
two or more `=` are fatal, while a single entry with an empty domain or an
empty backend is accepted. -/
theorem C8_parse_fatal_iff (m₀ : GoMap) :
    (∀ s : String, s ≠ "" →
      ((∃ msg, parseDomainMap s m₀ = .error msg) ↔
        ∃ e ∈ Split s ',', e.data.count '=' ≠ 1)) ∧
    (∀ s msg, s ≠ "" → parseDomainMap s m₀ = .error msg →
      ∃ e ∈ Split s ',', e.data.count '=' ≠ 1 ∧ msg = "Invalid domain mapping: " ++ e) ∧
    (∀ s : String, s ≠ "" → "" ∈ Split s ',' → ∃ msg, parseDomainMap s m₀ = .error msg) ∧
    (∀ s : String, s ≠ "" → (∃ e ∈ Split s ',', '=' ∉ e.data) →
      ∃ msg, parseDomainMap s m₀ = .error msg) ∧
    (∀ s : String, s ≠ "" → (∃ e ∈ Split s ',', 2 ≤ e.data.count '=') →
      ∃ msg, parseDomainMap s m₀ = .error msg) ∧
    (∀ u : String, ',' ∉ u.data → '=' ∉ u.data →
      parseDomainMap ("=" ++ u) m₀ = .ok (m₀.set "" u) ∧
      parseDomainMap (u ++ "=") m₀ = .ok (m₀.set u "")) := by
  have hiff : ∀ s : String, s ≠ "" →
      ((∃ msg, parseDomainMap s m₀ = .error msg) ↔
        ∃ e ∈ Split s ',', e.data.count '=' ≠ 1) := by
    intro s hs
    unfold parseDomainMap
    rw [if_pos hs]
    constructor
    · rintro ⟨msg, hmsg⟩
      obtain ⟨e, he, hc, _⟩ := parseMappings_error _ _ _ hmsg
      exact ⟨e, he, hc⟩
    · rintro ⟨e, he, hc⟩
      cases hres : parseMappings (Split s ',') m₀ with
      | error msg => exact ⟨msg, rfl⟩
      | ok m' => exact absurd ((parseMappings_ok _ _ _ hres).1 e he) hc
  refine ⟨hiff, ?_, ?_, ?_, ?_, ?_⟩
  · intro s msg hs hmsg
    unfold parseDomainMap at hmsg
    rw [if_pos hs] at hmsg
    exact parseMappings_error _ _ _ hmsg
  · intro s hs hmem
    exact (hiff s hs).2 ⟨"", hmem, by decide⟩
  · rintro s hs ⟨e, he, hno⟩
    refine (hiff s hs).2 ⟨e, he, ?_⟩
    rw [List.count_eq_zero_of_not_mem hno]
    decide
  · rintro s hs ⟨e, he, htwo⟩
    exact (hiff s hs).2 ⟨e, he, by omega⟩
  · intro u hc he
    constructor
    · have := parseDomainMap_render [("", u)] m₀ (by simp)
        (by
          intro p hp
          rw [List.mem_singleton] at hp
          subst hp
          exact ⟨List.not_mem_nil _, List.not_mem_nil _, hc, he⟩)
      simpa [renderPairs, GoMap.update] using this
    · have := parseDomainMap_render [(u, "")] m₀ (by simp)
        (by
          intro p hp
          rw [List.mem_singleton] at hp
          subst hp
          exact ⟨hc, he, List.not_mem_nil _, List.not_mem_nil _⟩)
      simpa [renderPairs, GoMap.update] using this

theorem C8_parse_fatal_iff_witness :
    ("a.com=http://h/?q=1,b.com=x" : String) ≠ "" ∧
    (∃ e ∈ Split "a.com=http://h/?q=1,b.com=x" ',', e.data.count '=' ≠ 1) ∧
    (∃ msg, parseDomainMap "a.com=http://h/?q=1,b.com=x" domainToProxyMap = .error msg) ∧
    parseDomainMap "a.com=x," domainToProxyMap = .error "Invalid domain mapping: " ∧
    parseDomainMap "a.com=x,,b.com=y" domainToProxyMap = .error "Invalid domain mapping: " ∧
    parseDomainMap "a.com" domainToProxyMap = .error "Invalid domain mapping: a.com" ∧
    parseDomainMap "a.com=" [] = .ok [("a.com", "")] ∧
    parseDomainMap "=x" [] = .ok [("", "x")] :=
  ⟨by decide, ⟨"a.com=http://h/?q=1", by decide, by decide⟩,
   ((C8_parse_fatal_iff domainToProxyMap).1 "a.com=http://h/?q=1,b.com=x" (by decide)).2
     ⟨"a.com=http://h/?q=1", by decide, by decide⟩,
   by decide, by decide, by decide, by decide, by decide⟩

/-! ## Self-signed generation -/

theorem selfSigned_genCalls {U : Type} (env : Env U) (certFile keyFile domains : String)
    (w : World) :
    (selfSigned env certFile keyFile domains w).world.genCalls =
      if (certFile = "" ∨ keyFile = "") ∧ domains = "" then w.genCalls + 1 else w.genCalls := by
  unfold selfSigned
  by_cases hc : (certFile = "" ∨ keyFile = "") ∧ domains = ""
  · have hc' : (¬ certFile ≠ "" ∨ ¬ keyFile ≠ "") ∧ ¬ domains ≠ "" := by
      simpa only [ne_eq, not_not] using hc
    simp only [if_pos hc, if_pos hc']
    cases env.genKeys (365 * 24 * Hour) with
    | error err => rfl
    | ok mat =>
      obtain ⟨certBuf, keyBuf, fp⟩ := mat
      by_cases h1 : env.createOk DefaultCertFile = true
      · by_cases h2 : env.createOk DefaultKeyFile = true
        · simp [h1, h2, World.writeFile]
        · simp [h1, h2, World.writeFile]
      · simp [h1]
  · have hc' : ¬ ((¬ certFile ≠ "" ∨ ¬ keyFile ≠ "") ∧ ¬ domains ≠ "") := by
      simpa only [ne_eq, not_not] using hc
    simp only [if_neg hc, if_neg hc']

theorem main_world {U : Type} (env : Env U) (f : Flags) (w : World) :
    (main env f w).world =
      match parseDomainMap f.domainMap domainToProxyMap with
      | .error _ => w
      | .ok _ => (selfSigned env f.certFile f.keyFile f.domains w).world := by
  unfold main
  cases parseDomainMap f.domainMap domainToProxyMap with
  | error msg => rfl
  | ok m =>
    simp only
    cases hres : (selfSigned env f.certFile f.keyFile f.domains w).result with
    | error msg => rfl
    | ok paths => rfl

/-- C4 as stated fails: with a certificate file supplied, no key file and no
CA domains, startup does invoke the key-pair generator. -/
theorem C4_counterexample :
    (main sampleEnv { defaultFlags with certFile := "my.pem" } emptyWorld).world.genCalls = 1 ∧
    (selfSigned sampleEnv "my.pem" "" "" emptyWorld).world.genCalls = 1 := by
  refine ⟨by decide, by decide⟩

/-- C4 (amended). Startup calls the key-pair generator exactly once when the
domain map is accepted, the certificate file or the key file is missing, and
no CA domains are given; in every other case it does not call it.  The
self-signed block itself, for every (certificate path, key path, CA domain
list), calls it once when a path is missing and no CA domains are given, and
not at all otherwise. -/
theorem C4_generator_calls {U : Type} (env : Env U) (f : Flags) (w : World) :
    (((∃ m, parseDomainMap f.domainMap domainToProxyMap = .ok m) ∧
        (f.certFile = "" ∨ f.keyFile = "") ∧ f.domains = "") →
      (main env f w).world.genCalls = w.genCalls + 1) ∧
    (¬ ((∃ m, parseDomainMap f.domainMap domainToProxyMap = .ok m) ∧
        (f.certFile = "" ∨ f.keyFile = "") ∧ f.domains = "") →
      (main env f w).world.genCalls = w.genCalls) ∧
    (∀ certFile keyFile domains : String,
      (selfSigned env certFile keyFile domains w).world.genCalls =
        if (certFile = "" ∨ keyFile = "") ∧ domains = "" then w.genCalls + 1
        else w.genCalls) := by
  refine ⟨?_, ?_, fun c k d => selfSigned_genCalls env c k d w⟩
  · rintro ⟨⟨m, hm⟩, hmiss⟩
    rw [main_world, hm]
    simp only
    rw [selfSigned_genCalls, if_pos hmiss]
  · intro hnot
    rw [main_world]
    cases hm : parseDomainMap f.domainMap domainToProxyMap with
    | error msg => rfl
    | ok m =>
      simp only
      rw [selfSigned_genCalls, if_neg]
      intro hmiss
      exact hnot ⟨⟨m, hm⟩, hmiss⟩

theorem C4_generator_calls_witness :
    ((∃ m, parseDomainMap defaultFlags.domainMap domainToProxyMap = .ok m) ∧
        (defaultFlags.certFile = "" ∨ defaultFlags.keyFile = "") ∧ defaultFlags.domains = "") ∧
    (main sampleEnv defaultFlags emptyWorld).world.genCalls = emptyWorld.genCalls + 1 :=
  ⟨⟨⟨_, rfl⟩, Or.inl rfl, rfl⟩,
   (C4_generator_calls sampleEnv defaultFlags emptyWorld).1 ⟨⟨_, rfl⟩, Or.inl rfl, rfl⟩⟩

/-- C5 as stated fails: started without certificate/key paths and CA domains
while `cert.pem` and `key.pem` exist, the program calls the generator and
replaces the contents of both files. -/
theorem C5_counterexample :
    worldWithCerts.files "cert.pem" = some [1] ∧
    worldWithCerts.files "key.pem" = some [2] ∧
    (main sampleEnv defaultFlags worldWithCerts).world.genCalls = 1 ∧
    (main sampleEnv defaultFlags worldWithCerts).world.files "cert.pem" = some [9] ∧
    (main sampleEnv defaultFlags worldWithCerts).world.files "key.pem" = some [8] := by
  refine ⟨by decide, by decide, by decide, by decide, by decide⟩

/-- C5 (amended). In every startup without certificate/key paths and CA
domains whose domain map is accepted, whether or not `cert.pem` and `key.pem`
are already present, the generator is called exactly once; when it succeeds
and both files can be created, `cert.pem` and `key.pem` afterwards hold the
newly generated certificate and key. -/
theorem C5_regenerated_every_start {U : Type} (env : Env U) (f : Flags) (w : World)
    (m : GoMap) (hm : parseDomainMap f.domainMap domainToProxyMap = .ok m)
    (hc : f.certFile = "") (hk : f.keyFile = "") (hd : f.domains = "") :
    (main env f w).world.genCalls = w.genCalls + 1 ∧
    (∀ certBuf keyBuf fp, env.genKeys (365 * 24 * Hour) = .ok (certBuf, keyBuf, fp) →
      env.createOk "cert.pem" = true → env.createOk "key.pem" = true →
      (main env f w).world.files "cert.pem" = some certBuf ∧
      (main env f w).world.files "key.pem" = some keyBuf) := by
  refine ⟨?_, ?_⟩
  · rw [main_world, hm]
    simp only
    rw [selfSigned_genCalls, if_pos ⟨Or.inl hc, hd⟩]
  · intro certBuf keyBuf fp hgen h1 h2
    rw [main_world, hm]
    simp only
    simp only [selfSigned, hc, hk, hd, hgen, World.writeFile, DefaultCertFile,
      DefaultKeyFile]
    simp [h1, h2]

theorem C5_regenerated_every_start_witness :
    (main sampleEnv defaultFlags worldWithCerts).world.genCalls = worldWithCerts.genCalls + 1 :=
  (C5_regenerated_every_start sampleEnv defaultFlags worldWithCerts domainToProxyMap
    rfl rfl rfl rfl).1

/-! ## TLS mode selection -/

theorem selfSigned_paths {U : Type} (env : Env U) (certFile keyFile domains : String)
    (w : World) (c k : String)
    (h : (selfSigned env certFile keyFile domains w).result = .ok (c, k)) :
    (((certFile = "" ∨ keyFile = "") ∧ domains = "") ∧ c = DefaultCertFile ∧ k = DefaultKeyFile) ∨
    (¬ ((certFile = "" ∨ keyFile = "") ∧ domains = "") ∧ c = certFile ∧ k = keyFile) := by
  unfold selfSigned at h
  by_cases hc : (certFile = "" ∨ keyFile = "") ∧ domains = ""
  · left
    refine ⟨hc, ?_⟩
    have hc' : (¬ certFile ≠ "" ∨ ¬ keyFile ≠ "") ∧ ¬ domains ≠ "" := by
      simpa only [ne_eq, not_not] using hc
    simp only [if_pos hc'] at h
    cases hgen : env.genKeys (365 * 24 * Hour) with
    | error err => simp [hgen] at h
    | ok mat =>
      obtain ⟨certBuf, keyBuf, fp⟩ := mat
      simp only [hgen] at h
      by_cases h1 : env.createOk DefaultCertFile = true
      · by_cases h2 : env.createOk DefaultKeyFile = true
        · simp only [h1, h2, if_true, Except.ok.injEq, Prod.mk.injEq] at h
          exact ⟨h.1.symm, h.2.symm⟩
        · simp [h1, h2] at h
      · simp [h1] at h
  · right
    refine ⟨hc, ?_⟩
    have hc' : ¬ ((¬ certFile ≠ "" ∨ ¬ keyFile ≠ "") ∧ ¬ domains ≠ "") := by
      simpa only [ne_eq, not_not] using hc
    simp only [if_neg hc', Except.ok.injEq, Prod.mk.injEq] at h
    exact ⟨h.1.symm, h.2.symm⟩

theorem main_serve {U : Type} (env : Env U) (f : Flags) (w : World) (plan : ServePlan)
    (h : (main env f w).serve = some plan) :
    ∃ c k, (selfSigned env f.certFile f.keyFile f.domains w).result = .ok (c, k) ∧
      plan = servePlan f c k := by
  unfold Run.serve main at h
  cases hm : parseDomainMap f.domainMap domainToProxyMap with
  | error msg => simp [hm] at h
  | ok m =>
    simp only [hm] at h
    cases hres : (selfSigned env f.certFile f.keyFile f.domains w).result with
    | error msg => simp [hres] at h
    | ok paths =>
      obtain ⟨c, k⟩ := paths
      simp only [hres, Option.some.injEq] at h
      exact ⟨c, k, rfl, h.symm⟩

/-- C9. When startup reaches the TLS listener, the certificate source is the
CA-managed one exactly when the `-domains` string is non-empty (the listener
is then started with empty certificate and key paths, so supplied files are
not used), and the static-files one otherwise; in the static case the paths
served are the two supplied paths, both non-empty, or `cert.pem` and
`key.pem`. -/
theorem C9_certificate_source {U : Type} (env : Env U) (f : Flags) (w : World)
    (plan : ServePlan) (h : (main env f w).serve = some plan) :
    (f.domains ≠ "" →
      plan = .managedACME f.fromURL f.cacheDir (Split f.domains ',') "" "") ∧
    (f.domains = "" →
      (plan = .staticFiles f.fromURL f.certFile f.keyFile ∧ f.certFile ≠ "" ∧ f.keyFile ≠ "") ∨
      plan = .staticFiles f.fromURL "cert.pem" "key.pem") ∧
    ((∃ a c l x y, plan = .managedACME a c l x y) ↔ f.domains ≠ "") ∧
    (∀ a c k, plan = .staticFiles a c k → c ≠ "" ∧ k ≠ "") := by
  obtain ⟨c, k, hres, hplan⟩ := main_serve env f w plan h
  have hpaths := selfSigned_paths env f.certFile f.keyFile f.domains w c k hres
  by_cases hd : f.domains = ""
  · have hstatic : plan = .staticFiles f.fromURL c k := by
      rw [hplan]
      simp [servePlan, hd]
    have hck : (c = f.certFile ∧ k = f.keyFile ∧ f.certFile ≠ "" ∧ f.keyFile ≠ "") ∨
        (c = "cert.pem" ∧ k = "key.pem") := by
      rcases hpaths with ⟨_, hc, hk⟩ | ⟨hn, hc, hk⟩
      · exact Or.inr ⟨hc, hk⟩
      · left
        refine ⟨hc, hk, ?_, ?_⟩
        · intro h0
          exact hn ⟨Or.inl h0, hd⟩
        · intro h0
          exact hn ⟨Or.inr h0, hd⟩
    refine ⟨fun hne => absurd hd hne, fun _ => ?_, ?_, ?_⟩
    · rcases hck with ⟨hc, hk, h1, h2⟩ | ⟨hc, hk⟩
      · left
        rw [hstatic, hc, hk]
        exact ⟨rfl, h1, h2⟩
      · right
        rw [hstatic, hc, hk]
    · constructor
      · rintro ⟨a, c', l, x, y, hEq⟩
        rw [hstatic] at hEq
        cases hEq
      · intro hne
        exact absurd hd hne
    · intro a c' k' hEq
      rw [hstatic] at hEq
      injection hEq with _ h2 h3
      subst h2 h3
      rcases hck with ⟨hc, hk, h1, h2⟩ | ⟨hc, hk⟩
      · rw [hc, hk]
        exact ⟨h1, h2⟩
      · rw [hc, hk]
        exact ⟨by decide, by decide⟩
  · have hacme : plan = .managedACME f.fromURL f.cacheDir (Split f.domains ',') "" "" := by
      rw [hplan]
      simp [servePlan, hd]
    refine ⟨fun _ => hacme, fun h0 => absurd h0 hd, ?_, ?_⟩
    · exact ⟨fun _ => hd, fun _ => ⟨_, _, _, _, _, hacme⟩⟩
    · intro a c' k' hEq
      rw [hacme] at hEq
      cases hEq

theorem C9_certificate_source_witness :
    (main sampleEnv acmeFlags emptyWorld).serve
      = some (.managedACME "127.0.0.1:443" "certs" ["a.com", "b.com"] "" "") ∧
    (ServePlan.managedACME "127.0.0.1:443" "certs" ["a.com", "b.com"] "" "" =
      .managedACME "127.0.0.1:443" "certs" (Split "a.com,b.com" ',') "" "") :=
  ⟨by decide,
   (C9_certificate_source sampleEnv acmeFlags emptyWorld _ (by decide)).1 (by decide)⟩

/-! ## The `-to` flag -/

theorem HasPrefix_append (p t : String) : HasPrefix (p ++ t) p = true := by
  simp [HasPrefix, String.data_append]

theorem normalizeTo_idem (t : String) : normalizeTo (normalizeTo t) = normalizeTo t := by
  by_cases h : ¬ HasPrefix t HTTPPrefix ∧ ¬ HasPrefix t HTTPSPrefix
  · have h1 : normalizeTo t = HTTPPrefix ++ t := by
      unfold normalizeTo
      rw [if_pos h]
    rw [h1]
    unfold normalizeTo
    rw [if_neg]
    rintro ⟨h2, _⟩
    exact h2 (HasPrefix_append HTTPPrefix t)
  · have h1 : normalizeTo t = t := by
      unfold normalizeTo
      rw [if_neg h]
    rw [h1, h1]

/-- C10. The value of `-to` does not reach dispatch: two startups that differ
only in `-to` leave the same world, stop with the same fatal message or
serve with the same domain map and listener, and their encrypted-path and
redirector handlers give the same outcome on every request.  The final
`-to` is the given one when it starts with `http://` or `https://` and the
given one prefixed with `http://` otherwise, and normalising twice is the
same as normalising once. -/
theorem C10_to_has_no_influence {U : Type} (env : Env U) (f : Flags) (w : World)
    (t : String) :
    (main env { f with toURL := t } w).world = (main env f w).world ∧
    (main env { f with toURL := t } w).fatal = (main env f w).fatal ∧
    (main env { f with toURL := t } w).domainMap = (main env f w).domainMap ∧
    (main env { f with toURL := t } w).serve = (main env f w).serve ∧
    (∀ r, (main env { f with toURL := t } w).dispatch r = (main env f w).dispatch r) ∧
    (∀ r, (main env { f with toURL := t } w).plainDispatch r = (main env f w).plainDispatch r) ∧
    ((main env f w).toURL = none ∨ (main env f w).toURL = some (normalizeTo f.toURL)) ∧
    (normalizeTo t = if HasPrefix t "http://" ∨ HasPrefix t "https://" then t
      else "http://" ++ t) ∧
    normalizeTo (normalizeTo t) = normalizeTo t := by
  have key : ∀ g : Flags, g.certFile = f.certFile → g.keyFile = f.keyFile →
      g.domains = f.domains → g.domainMap = f.domainMap → g.redirectHTTP = f.redirectHTTP →
      g.fromURL = f.fromURL → g.cacheDir = f.cacheDir →
      (main env g w).world = (main env f w).world ∧
      (main env g w).fatal = (main env f w).fatal ∧
      (main env g w).domainMap = (main env f w).domainMap ∧
      (main env g w).serve = (main env f w).serve ∧
      (∀ r, (main env g w).dispatch r = (main env f w).dispatch r) ∧
      (∀ r, (main env g w).plainDispatch r = (main env f w).plainDispatch r) := by
    intro g h1 h2 h3 h4 h5 h6 h7
    unfold Run.fatal Run.domainMap Run.serve Run.dispatch Run.plainDispatch main servePlan
    rw [h1, h2, h3, h4, h5, h6, h7]
    cases parseDomainMap f.domainMap domainToProxyMap with
    | error msg => simp
    | ok m =>
      simp only
      cases (selfSigned env f.certFile f.keyFile f.domains w).result with
      | error msg => simp
      | ok paths => simp
  obtain ⟨k1, k2, k3, k4, k5, k6⟩ := key { f with toURL := t } rfl rfl rfl rfl rfl rfl rfl
  refine ⟨k1, k2, k3, k4, k5, k6, ?_, ?_, normalizeTo_idem t⟩
  · unfold Run.toURL main
    cases parseDomainMap f.domainMap domainToProxyMap with
    | error msg => simp
    | ok m =>
      simp only
      cases (selfSigned env f.certFile f.keyFile f.domains w).result with
      | error msg => simp
      | ok paths => simp
  · unfold normalizeTo HTTPPrefix HTTPSPrefix
    by_cases h1 : HasPrefix t "http://" = true
    · simp [h1]
    · by_cases h2 : HasPrefix t "https://" = true
      · simp [h1, h2]
      · simp [h1, h2]

end SslProxy
